import Mathlib

/-!
Verification development for the transaction construction, encoding, hashing,
signing and verification core of a blockchain client SDK
(`src/types/transactions.rs`, `src/constants.rs`).

The Rust code is shallowly embedded: byte streams are `List Nat` (each entry a
byte value), machine integers are `Nat` with explicit `% 2^w` where overflow
matters, fallible parsing returns `Option`, and `BTreeMap`s are association
lists ordered by key.  Types from external collaborator crates (Wasm modules,
credential deployment info, zero-knowledge proofs, raw signatures, ...) are
opaque type parameters equipped with abstract codecs, since their wire format
is defined outside this repository and used as a black box.
-/

namespace Tx

/-- Narrowing cast to a byte, as Rust's `as u8`. -/
def byte (n : Nat) : Nat := n % 256

/-- Big-endian fixed-width encoding of a natural number into `k` bytes
(the encoding of `u8`/`u16`/`u32`/`u64` and 32-byte account addresses). -/
def beBytes : Nat → Nat → List Nat
  | 0, _ => []
  | k + 1, n => (n / 256 ^ k) % 256 :: beBytes k n

/-- Big-endian fixed-width decoding: read `k` bytes, accumulating into `acc`.
Fails when the stream is exhausted. -/
def beRead : Nat → Nat → List Nat → Option (Nat × List Nat)
  | 0, acc, l => some (acc, l)
  | _ + 1, _, [] => none
  | k + 1, acc, b :: l => beRead k (acc * 256 + b) l

@[simp] theorem beBytes_length (k n : Nat) : (beBytes k n).length = k := by
  induction k generalizing n with
  | zero => rfl
  | succ k ih => simp [beBytes, ih]

theorem beRead_beBytes (k : Nat) (acc n : Nat) (r : List Nat) :
    beRead k acc (beBytes k n ++ r) = some (acc * 256 ^ k + n % 256 ^ k, r) := by
  induction k generalizing acc n with
  | zero => simp [beBytes, beRead, Nat.mod_one]
  | succ k ih =>
      simp only [beBytes, List.cons_append, beRead]
      rw [show (beBytes k n).append r = beBytes k n ++ r from rfl, ih]
      have h1 : n % 256 ^ (k + 1) = n % 256 ^ k + 256 ^ k * (n / 256 ^ k % 256) := by
        rw [pow_succ, Nat.mod_mul]
      rw [h1]
      congr 2
      ring

theorem beRead_beBytes_of_lt (k n : Nat) (h : n < 256 ^ k) (r : List Nat) :
    beRead k 0 (beBytes k n ++ r) = some (n, r) := by
  rw [beRead_beBytes]
  simp [Nat.mod_eq_of_lt h]

/-- Read a single byte from the stream (`u8::deserial`). -/
def readByte : List Nat → Option (Nat × List Nat)
  | [] => none
  | b :: r => some (b, r)

/-- Read exactly `n` bytes from the stream (`deserial_bytes`). -/
def readBytes (n : Nat) (l : List Nat) : Option (List Nat × List Nat) :=
  if n ≤ l.length then some (l.take n, l.drop n) else none

@[simp] theorem readBytes_append (d r : List Nat) :
    readBytes d.length (d ++ r) = some (d, r) := by
  simp [readBytes, List.take_left, List.drop_left]

/-- A byte-stream codec for a field type: an encoder and a streaming decoder
returning the decoded value and the unconsumed rest of the stream.  Used to
model the `Serial`/`Deserial` instances of field types whose wire format is
defined outside the sources under study. -/
structure Codec (α : Type) where
  enc : α → List Nat
  dec : List Nat → Option (α × List Nat)

/-- A codec is lawful when decoding an encoding consumes exactly those bytes
and returns the encoded value. -/
def Codec.Lawful {α : Type} (c : Codec α) : Prop :=
  ∀ (a : α) (r : List Nat), c.dec (c.enc a ++ r) = some (a, r)

/-- A codec is lawful on a predicate when roundtrip holds for values
satisfying it (fixed-width integer codecs truncate out-of-range values). -/
def Codec.LawfulOn {α : Type} (c : Codec α) (P : α → Prop) : Prop :=
  ∀ (a : α), P a → ∀ (r : List Nat), c.dec (c.enc a ++ r) = some (a, r)

/-- Codec for a `k`-byte big-endian unsigned integer. -/
def beC (k : Nat) : Codec Nat := ⟨beBytes k, beRead k 0⟩

theorem beC_lawfulOn (k : Nat) : (beC k).LawfulOn (· < 256 ^ k) := by
  intro a ha r
  simpa [beC] using beRead_beBytes_of_lt k a ha r

/-- Codec for a single byte (`u8`). -/
def byteC : Codec Nat := ⟨fun n => [byte n], readByte⟩

theorem byteC_lawfulOn : byteC.LawfulOn (· < 256) := by
  intro a ha r
  simp [byteC, byte, readByte, Nat.mod_eq_of_lt ha]

/-- Codec for `bool` (one byte, `0`/`1`; any other byte is a decode error). -/
def boolC : Codec Bool where
  enc b := [if b then 1 else 0]
  dec l :=
    match l with
    | [] => none
    | 0 :: r => some (false, r)
    | 1 :: r => some (true, r)
    | _ :: _ => none

theorem boolC_lawful : boolC.Lawful := by
  intro a r
  cases a <;> rfl

/-- Models `serial_vector_no_length`: concatenate the encodings of the elements,
without a length prefix. -/
def serialListNoLength {α : Type} (c : Codec α) (l : List α) : List Nat :=
  match l with
  | [] => []
  | a :: l => c.enc a ++ serialListNoLength c l

/-- Models `deserial_vector_no_length`: read exactly `n` elements. -/
def deserialListNoLength {α : Type} (c : Codec α) :
    Nat → List Nat → Option (List α × List Nat)
  | 0, l => some ([], l)
  | n + 1, l => do
      let (a, r) ← c.dec l
      let (as, r2) ← deserialListNoLength c n r
      pure (a :: as, r2)

theorem deserialListNoLength_roundtrip {α : Type} (c : Codec α) (l : List α)
    (h : ∀ a ∈ l, ∀ r, c.dec (c.enc a ++ r) = some (a, r)) (r : List Nat) :
    deserialListNoLength c l.length (serialListNoLength c l ++ r) = some (l, r) := by
  induction l with
  | nil => simp [serialListNoLength, deserialListNoLength]
  | cons a l ih =>
      have ha := h a (List.mem_cons_self a l)
      simp only [List.length_cons, serialListNoLength, List.append_assoc,
        deserialListNoLength, ha, Option.bind_eq_bind, Option.some_bind]
      rw [ih (fun x hx => h x (List.mem_cons_of_mem a hx))]
      rfl

/-- Parsing `k ≤ l.length` elements from the element-wise encoding of `l`
followed by `r` consumes exactly the first `k` encodings; `g` is the
value-truncation performed by the element codec. -/
theorem deserialListNoLength_take {α : Type} (c : Codec α) (g : α → α)
    (hg : ∀ a r, c.dec (c.enc a ++ r) = some (g a, r)) (k : Nat) (l : List α)
    (r : List Nat) (hk : k ≤ l.length) :
    deserialListNoLength c k (serialListNoLength c l ++ r) =
      some ((l.take k).map g, serialListNoLength c (l.drop k) ++ r) := by
  induction k generalizing l with
  | zero => simp [deserialListNoLength]
  | succ k ih =>
      cases l with
      | nil => simp at hk
      | cons a l =>
          simp only [serialListNoLength, List.append_assoc, deserialListNoLength,
            hg a, Option.bind_eq_bind, Option.some_bind]
          rw [ih l (by simpa using hk)]
          simp

/-- Models `serial_map_no_length` for integer keys: write each key followed by its
value, in stored (ascending) order. -/
def serialMapNoLength {α : Type} (kc : Codec Nat) (vc : Codec α)
    (m : List (Nat × α)) : List Nat :=
  match m with
  | [] => []
  | (k, v) :: m => kc.enc k ++ vc.enc v ++ serialMapNoLength kc vc m

/-- Models `deserial_map_no_length`: read exactly `n` key-value pairs, failing unless
keys appear in strictly ascending order (`last` is the previously read key). -/
def deserialMapNoLength {α : Type} (kc : Codec Nat) (vc : Codec α) :
    Nat → Option Nat → List Nat → Option (List (Nat × α) × List Nat)
  | 0, _, l => some ([], l)
  | n + 1, last, l => do
      let (k, r) ← kc.dec l
      let (v, r2) ← vc.dec r
      match last with
      | some k0 =>
          if k0 < k then do
            let (rest, r3) ← deserialMapNoLength kc vc n (some k) r2
            pure ((k, v) :: rest, r3)
          else none
      | none => do
          let (rest, r3) ← deserialMapNoLength kc vc n (some k) r2
          pure ((k, v) :: rest, r3)

theorem deserialMapNoLength_length {α : Type} (kc : Codec Nat) (vc : Codec α)
    (n : Nat) (last : Option Nat) (l : List Nat) (m : List (Nat × α)) (r : List Nat)
    (h : deserialMapNoLength kc vc n last l = some (m, r)) : m.length = n := by
  induction n generalizing last l m r with
  | zero =>
      simp only [deserialMapNoLength, Option.some.injEq, Prod.mk.injEq] at h
      simp [← h.1]
  | succ n ih =>
      simp only [deserialMapNoLength, Option.bind_eq_bind, Option.bind_eq_some] at h
      obtain ⟨⟨k, r1⟩, _, h⟩ := h
      obtain ⟨⟨v, r2⟩, _, h⟩ := h
      cases last with
      | some k0 =>
          by_cases hk : k0 < k
          · simp only [hk, if_true, Option.bind_eq_some] at h
            obtain ⟨⟨rest, r3⟩, hrest, h⟩ := h
            simp only [Option.pure_def, Option.some.injEq, Prod.mk.injEq] at h
            simp [← h.1, ih _ _ _ _ hrest]
          · simp [hk] at h
      | none =>
          simp only [Option.bind_eq_some] at h
          obtain ⟨⟨rest, r3⟩, hrest, h⟩ := h
          simp only [Option.pure_def, Option.some.injEq, Prod.mk.injEq] at h
          simp [← h.1, ih _ _ _ _ hrest]

theorem deserialMapNoLength_roundtrip {α : Type} (kc : Codec Nat) (vc : Codec α)
    (m : List (Nat × α)) (last : Option Nat)
    (hchain : List.Chain' (· < ·) (last.toList ++ m.map Prod.fst))
    (hk : ∀ p ∈ m, ∀ s, kc.dec (kc.enc p.1 ++ s) = some (p.1, s))
    (hv : ∀ p ∈ m, ∀ s, vc.dec (vc.enc p.2 ++ s) = some (p.2, s))
    (r : List Nat) :
    deserialMapNoLength kc vc m.length last (serialMapNoLength kc vc m ++ r) =
      some (m, r) := by
  induction m generalizing last with
  | nil => simp [serialMapNoLength, deserialMapNoLength]
  | cons p m ih =>
      obtain ⟨k, v⟩ := p
      have hk1 := hk (k, v) (List.mem_cons_self _ _)
      have hv1 := hv (k, v) (List.mem_cons_self _ _)
      have ih2 := ih (some k)
        (by
          cases last with
          | none => simpa using hchain
          | some k0 =>
              simp only [Option.toList, List.map_cons, List.cons_append,
                List.nil_append, List.chain'_cons] at hchain ⊢
              exact hchain.2)
        (fun q hq => hk q (List.mem_cons_of_mem _ hq))
        (fun q hq => hv q (List.mem_cons_of_mem _ hq))
      simp only [List.length_cons, serialMapNoLength, List.append_assoc,
        deserialMapNoLength, hk1, hv1, Option.bind_eq_bind, Option.some_bind]
      cases last with
      | none => rw [ih2]; rfl
      | some k0 =>
          have hlt : k0 < k := by
            simp only [Option.toList, List.map_cons, List.cons_append,
              List.nil_append, List.chain'_cons] at hchain
            exact hchain.1
          simp only [hlt, if_true]
          rw [ih2]
          rfl

/-- Parsing `n ≤ m.length` key-value pairs from the encoding of the ordered
map `m` consumes exactly the first `n` entries (the ascending-order check
passes on any prefix of an ordered map). -/
theorem deserialMapNoLength_take {α : Type} (kc : Codec Nat) (vc : Codec α)
    (n : Nat) (m : List (Nat × α)) (last : Option Nat)
    (hchain : List.Chain' (· < ·) (last.toList ++ m.map Prod.fst))
    (hn : n ≤ m.length)
    (hk : ∀ p ∈ m, ∀ s, kc.dec (kc.enc p.1 ++ s) = some (p.1, s))
    (hv : ∀ p ∈ m, ∀ s, vc.dec (vc.enc p.2 ++ s) = some (p.2, s))
    (r : List Nat) :
    deserialMapNoLength kc vc n last (serialMapNoLength kc vc m ++ r) =
      some (m.take n, serialMapNoLength kc vc (m.drop n) ++ r) := by
  induction n generalizing m last with
  | zero => simp [deserialMapNoLength]
  | succ n ih =>
      cases m with
      | nil => simp at hn
      | cons p m =>
          obtain ⟨k, v⟩ := p
          have hk1 := hk (k, v) (List.mem_cons_self _ _)
          have hv1 := hv (k, v) (List.mem_cons_self _ _)
          have ih2 := ih m (some k)
            (by
              cases last with
              | none => simpa using hchain
              | some k0 =>
                  simp only [Option.toList, List.map_cons, List.cons_append,
                    List.nil_append, List.chain'_cons] at hchain ⊢
                  exact hchain.2)
            (by simpa using hn)
            (fun q hq => hk q (List.mem_cons_of_mem _ hq))
            (fun q hq => hv q (List.mem_cons_of_mem _ hq))
          simp only [serialMapNoLength, List.append_assoc, deserialMapNoLength,
            hk1, hv1, Option.bind_eq_bind, Option.some_bind]
          cases last with
          | none => rw [ih2]; rfl
          | some k0 =>
              have hlt : k0 < k := by
                simp only [Option.toList, List.map_cons, List.cons_append,
                  List.nil_append, List.chain'_cons] at hchain
                exact hchain.1
              simp only [hlt, if_true]
              rw [ih2]
              rfl

/-- Modelled from the spec: the wire format of the repository's byte-blob
types `Memo` (max 256 bytes) and `RegisteredData` (max 256 bytes), which are
declared in this repository outside the sources under study.  A two-byte
big-endian length prefix (the maximum sizes exceed 255, so a single byte
cannot hold them) followed by the raw bytes; the decoder enforces the
maximum size. -/
def lenPrefixed16 (maxSize : Nat) : Codec (List Nat) where
  enc d := beBytes 2 d.length ++ d
  dec l := do
    let (n, r) ← beRead 2 0 l
    if n ≤ maxSize then readBytes n r else none

theorem lenPrefixed16_lawfulOn (maxSize : Nat) (hmax : maxSize < 65536) :
    (lenPrefixed16 maxSize).LawfulOn (fun d => d.length ≤ maxSize) := by
  intro d hd r
  have hlen : d.length < 256 ^ 2 := lt_of_le_of_lt hd (by simpa using hmax)
  simp only [lenPrefixed16, List.append_assoc,
    beRead_beBytes_of_lt 2 d.length hlen, Option.bind_eq_bind,
    Option.some_bind, hd, if_true, readBytes_append]

/-- The field types of transaction payloads whose definition and wire format
live in external collaborator crates (`crypto_common`, `id`,
`encrypted_transfers`, and in type modules of this repository outside the
sources under study).  Each is an opaque type together with the codec that
models its `Serial`/`Deserial` instances. -/
structure ExtEnv where
  WasmModule : Type
  wasmModuleC : Codec WasmModule
  ModuleRef : Type
  moduleRefC : Codec ModuleRef
  InitName : Type
  initNameC : Codec InitName
  Param : Type
  paramC : Codec Param
  ContractAddress : Type
  contractAddressC : Codec ContractAddress
  ReceiveName : Type
  receiveNameC : Codec ReceiveName
  BakerKeys : Type
  bakerKeysC : Codec BakerKeys
  CredRegId : Type
  credRegIdC : Codec CredRegId
  CredPublicKeys : Type
  credPublicKeysC : Codec CredPublicKeys
  EncTransferData : Type
  encTransferDataC : Codec EncTransferData
  SecToPubData : Type
  secToPubDataC : Codec SecToPubData
  CredDeploymentInfo : Type
  credDeploymentInfoC : Codec CredDeploymentInfo
  AccountThreshold : Type
  accountThresholdC : Codec AccountThreshold

/-- All external codecs are lawful (their crates' serialization roundtrips). -/
structure LawfulExt (E : ExtEnv) : Prop where
  wasm : E.wasmModuleC.Lawful
  modRef : E.moduleRefC.Lawful
  initName : E.initNameC.Lawful
  param : E.paramC.Lawful
  contractAddress : E.contractAddressC.Lawful
  receiveName : E.receiveNameC.Lawful
  bakerKeys : E.bakerKeysC.Lawful
  credRegId : E.credRegIdC.Lawful
  credPublicKeys : E.credPublicKeysC.Lawful
  encTransferData : E.encTransferDataC.Lawful
  secToPubData : E.secToPubDataC.Lawful
  credDeploymentInfo : E.credDeploymentInfoC.Lawful
  accountThreshold : E.accountThresholdC.Lawful

/-- Models `InitContractPayload`: amount, module reference, init name, parameter. -/
structure InitContractPayload (E : ExtEnv) where
  amount : Nat
  mod_ref : E.ModuleRef
  init_name : E.InitName
  param : E.Param

/-- Models `UpdateContractPayload`: amount, contract address, receive name, message. -/
structure UpdateContractPayload (E : ExtEnv) where
  amount : Nat
  address : E.ContractAddress
  receive_name : E.ReceiveName
  message : E.Param

/-- Models `AddBakerPayload`: baker keys with proofs, initial stake, restake flag. -/
structure AddBakerPayload (E : ExtEnv) where
  keys : E.BakerKeys
  baking_stake : Nat
  restake_earnings : Bool

/-- The `Payload` enum: the closed tagged union of account-transaction
bodies.  Account addresses are 32-byte values modelled as `Nat < 2^256`;
amounts and timestamps are `u64` modelled as `Nat`; memos and registered
data are byte blobs; credential indices are `u8` map keys. -/
inductive Payload (E : ExtEnv) where
  | deployModule (module : E.WasmModule)
  | initContract (payload : InitContractPayload E)
  | update (payload : UpdateContractPayload E)
  | transfer (to_address : Nat) (amount : Nat)
  | addBaker (payload : AddBakerPayload E)
  | removeBaker
  | updateBakerStake (stake : Nat)
  | updateBakerRestakeEarnings (restake_earnings : Bool)
  | updateBakerKeys (payload : E.BakerKeys)
  | updateCredentialKeys (cred_id : E.CredRegId) (keys : E.CredPublicKeys)
  | encryptedAmountTransfer (to_address : Nat) (data : E.EncTransferData)
  | transferToEncrypted (amount : Nat)
  | transferToPublic (data : E.SecToPubData)
  | transferWithSchedule (to_address : Nat) (schedule : List (Nat × Nat))
  | updateCredentials (new_cred_infos : List (Nat × E.CredDeploymentInfo))
      (remove_cred_ids : List E.CredRegId) (new_threshold : E.AccountThreshold)
  | registerData (data : List Nat)
  | transferWithMemo (to_address : Nat) (memo : List Nat) (amount : Nat)
  | encryptedAmountTransferWithMemo (to_address : Nat) (memo : List Nat)
      (data : E.EncTransferData)
  | transferWithScheduleAndMemo (to_address : Nat) (memo : List Nat)
      (schedule : List (Nat × Nat))

/-- Codec of one release-schedule entry `(Timestamp, Amount)`: two `u64`s. -/
def scheduleEntryC : Codec (Nat × Nat) where
  enc e := beBytes 8 e.1 ++ beBytes 8 e.2
  dec l := do
    let (t, r) ← beRead 8 0 l
    let (a, r2) ← beRead 8 0 r
    pure ((t, a), r2)

/-- Memo codec: two-byte length prefix, max 256 bytes (`MAX_MEMO_SIZE`). -/
def memoC : Codec (List Nat) := lenPrefixed16 256

/-- Registered-data codec: two-byte length prefix, max 256 bytes
(`MAX_REGISTERED_DATA_SIZE`). -/
def registeredDataC : Codec (List Nat) := lenPrefixed16 256

/-- Models `impl Serial for InitContractPayload`: fields in declared order. -/
def InitContractPayload.serial {E : ExtEnv} (p : InitContractPayload E) : List Nat :=
  beBytes 8 p.amount ++ E.moduleRefC.enc p.mod_ref ++ E.initNameC.enc p.init_name ++
    E.paramC.enc p.param

/-- Models `impl Deserial for InitContractPayload`. -/
def InitContractPayload.deserial (E : ExtEnv) (l : List Nat) :
    Option (InitContractPayload E × List Nat) := do
  let (amount, r1) ← beRead 8 0 l
  let (mod_ref, r2) ← E.moduleRefC.dec r1
  let (init_name, r3) ← E.initNameC.dec r2
  let (param, r4) ← E.paramC.dec r3
  pure (⟨amount, mod_ref, init_name, param⟩, r4)

/-- Models `impl Serial for UpdateContractPayload`: fields in declared order. -/
def UpdateContractPayload.serial {E : ExtEnv} (p : UpdateContractPayload E) : List Nat :=
  beBytes 8 p.amount ++ E.contractAddressC.enc p.address ++
    E.receiveNameC.enc p.receive_name ++ E.paramC.enc p.message

/-- Models `impl Deserial for UpdateContractPayload`. -/
def UpdateContractPayload.deserial (E : ExtEnv) (l : List Nat) :
    Option (UpdateContractPayload E × List Nat) := do
  let (amount, r1) ← beRead 8 0 l
  let (address, r2) ← E.contractAddressC.dec r1
  let (receive_name, r3) ← E.receiveNameC.dec r2
  let (message, r4) ← E.paramC.dec r3
  pure (⟨amount, address, receive_name, message⟩, r4)

/-- Models `impl Serial for AddBakerPayload`: keys, stake, restake flag. -/
def AddBakerPayload.serial {E : ExtEnv} (p : AddBakerPayload E) : List Nat :=
  E.bakerKeysC.enc p.keys ++ beBytes 8 p.baking_stake ++ boolC.enc p.restake_earnings

/-- Models `impl Deserial for AddBakerPayload`. -/
def AddBakerPayload.deserial (E : ExtEnv) (l : List Nat) :
    Option (AddBakerPayload E × List Nat) := do
  let (keys, r1) ← E.bakerKeysC.dec l
  let (baking_stake, r2) ← beRead 8 0 r1
  let (restake_earnings, r3) ← boolC.dec r2
  pure (⟨keys, baking_stake, restake_earnings⟩, r3)

/-- Models `impl Serial for Payload`: one discriminant byte followed by the
variant's fields in declared order; variable-length collections are
prefixed by their element count narrowed to a single byte (`as u8`). -/
def Payload.serial {E : ExtEnv} : Payload E → List Nat
  | .deployModule module => 0 :: E.wasmModuleC.enc module
  | .initContract payload => 1 :: payload.serial
  | .update payload => 2 :: payload.serial
  | .transfer to_address amount => 3 :: (beBytes 32 to_address ++ beBytes 8 amount)
  | .addBaker payload => 4 :: payload.serial
  | .removeBaker => [5]
  | .updateBakerStake stake => 6 :: beBytes 8 stake
  | .updateBakerRestakeEarnings restake_earnings => 7 :: boolC.enc restake_earnings
  | .updateBakerKeys payload => 8 :: E.bakerKeysC.enc payload
  | .updateCredentialKeys cred_id keys =>
      13 :: (E.credRegIdC.enc cred_id ++ E.credPublicKeysC.enc keys)
  | .encryptedAmountTransfer to_address data =>
      16 :: (beBytes 32 to_address ++ E.encTransferDataC.enc data)
  | .transferToEncrypted amount => 17 :: beBytes 8 amount
  | .transferToPublic data => 18 :: E.secToPubDataC.enc data
  | .transferWithSchedule to_address schedule =>
      19 :: (beBytes 32 to_address ++ byte schedule.length ::
        serialListNoLength scheduleEntryC schedule)
  | .updateCredentials new_cred_infos remove_cred_ids new_threshold =>
      20 :: (byte new_cred_infos.length ::
        serialMapNoLength byteC E.credDeploymentInfoC new_cred_infos ++
        byte remove_cred_ids.length ::
        serialListNoLength E.credRegIdC remove_cred_ids ++
        E.accountThresholdC.enc new_threshold)
  | .registerData data => 21 :: registeredDataC.enc data
  | .transferWithMemo to_address memo amount =>
      22 :: (beBytes 32 to_address ++ memoC.enc memo ++ beBytes 8 amount)
  | .encryptedAmountTransferWithMemo to_address memo data =>
      23 :: (beBytes 32 to_address ++ memoC.enc memo ++ E.encTransferDataC.enc data)
  | .transferWithScheduleAndMemo to_address memo schedule =>
      24 :: (beBytes 32 to_address ++ memoC.enc memo ++ byte schedule.length ::
        serialListNoLength scheduleEntryC schedule)

/-- Dispatch of `impl Deserial for Payload` on the discriminant byte; an
unrecognized discriminant is a parse error, never a default. -/
def Payload.deserialTag (E : ExtEnv) (tag : Nat) (l : List Nat) :
    Option (Payload E × List Nat) :=
  if tag = 0 then do
    let (module, r) ← E.wasmModuleC.dec l
    pure (.deployModule module, r)
  else if tag = 1 then do
    let (payload, r) ← InitContractPayload.deserial E l
    pure (.initContract payload, r)
  else if tag = 2 then do
    let (payload, r) ← UpdateContractPayload.deserial E l
    pure (.update payload, r)
  else if tag = 3 then do
    let (to_address, r) ← beRead 32 0 l
    let (amount, r2) ← beRead 8 0 r
    pure (.transfer to_address amount, r2)
  else if tag = 4 then do
    let (payload_data, r) ← AddBakerPayload.deserial E l
    pure (.addBaker payload_data, r)
  else if tag = 5 then pure (.removeBaker, l)
  else if tag = 6 then do
    let (stake, r) ← beRead 8 0 l
    pure (.updateBakerStake stake, r)
  else if tag = 7 then do
    let (restake_earnings, r) ← boolC.dec l
    pure (.updateBakerRestakeEarnings restake_earnings, r)
  else if tag = 8 then do
    let (payload_data, r) ← E.bakerKeysC.dec l
    pure (.updateBakerKeys payload_data, r)
  else if tag = 13 then do
    let (cred_id, r) ← E.credRegIdC.dec l
    let (keys, r2) ← E.credPublicKeysC.dec r
    pure (.updateCredentialKeys cred_id keys, r2)
  else if tag = 16 then do
    let (to_address, r) ← beRead 32 0 l
    let (data, r2) ← E.encTransferDataC.dec r
    pure (.encryptedAmountTransfer to_address data, r2)
  else if tag = 17 then do
    let (amount, r) ← beRead 8 0 l
    pure (.transferToEncrypted amount, r)
  else if tag = 18 then do
    let (data_data, r) ← E.secToPubDataC.dec l
    pure (.transferToPublic data_data, r)
  else if tag = 19 then do
    let (to_address, r) ← beRead 32 0 l
    let (len, r2) ← readByte r
    let (schedule, r3) ← deserialListNoLength scheduleEntryC len r2
    pure (.transferWithSchedule to_address schedule, r3)
  else if tag = 20 then do
    let (cred_infos_len, r1) ← readByte l
    let (new_cred_infos, r2) ←
      deserialMapNoLength byteC E.credDeploymentInfoC cred_infos_len none r1
    let (remove_cred_ids_len, r3) ← readByte r2
    let (remove_cred_ids, r4) ←
      deserialListNoLength E.credRegIdC remove_cred_ids_len r3
    let (new_threshold, r5) ← E.accountThresholdC.dec r4
    pure (.updateCredentials new_cred_infos remove_cred_ids new_threshold, r5)
  else if tag = 21 then do
    let (data, r) ← registeredDataC.dec l
    pure (.registerData data, r)
  else if tag = 22 then do
    let (to_address, r) ← beRead 32 0 l
    let (memo, r2) ← memoC.dec r
    let (amount, r3) ← beRead 8 0 r2
    pure (.transferWithMemo to_address memo amount, r3)
  else if tag = 23 then do
    let (to_address, r) ← beRead 32 0 l
    let (memo, r2) ← memoC.dec r
    let (data, r3) ← E.encTransferDataC.dec r2
    pure (.encryptedAmountTransferWithMemo to_address memo data, r3)
  else if tag = 24 then do
    let (to_address, r) ← beRead 32 0 l
    let (memo, r2) ← memoC.dec r
    let (len, r3) ← readByte r2
    let (schedule, r4) ← deserialListNoLength scheduleEntryC len r3
    pure (.transferWithScheduleAndMemo to_address memo schedule, r4)
  else none

/-- Models `impl Deserial for Payload`: read the discriminant byte, then dispatch. -/
def Payload.deserial (E : ExtEnv) (l : List Nat) : Option (Payload E × List Nat) := do
  let (tag, r) ← readByte l
  Payload.deserialTag E tag r

/-- The protocol limits under which a structured payload is well-formed:
32-byte addresses, `u64` amounts and timestamps, at most 255 entries in
single-byte-length-prefixed collections, `u8` credential-index map keys in
ascending (BTreeMap) order, memo and registered data within their caps. -/
def Payload.WithinLimits {E : ExtEnv} : Payload E → Prop
  | .deployModule _ => True
  | .initContract payload => payload.amount < 256 ^ 8
  | .update payload => payload.amount < 256 ^ 8
  | .transfer to_address amount => to_address < 256 ^ 32 ∧ amount < 256 ^ 8
  | .addBaker payload => payload.baking_stake < 256 ^ 8
  | .removeBaker => True
  | .updateBakerStake stake => stake < 256 ^ 8
  | .updateBakerRestakeEarnings _ => True
  | .updateBakerKeys _ => True
  | .updateCredentialKeys _ _ => True
  | .encryptedAmountTransfer to_address _ => to_address < 256 ^ 32
  | .transferToEncrypted amount => amount < 256 ^ 8
  | .transferToPublic _ => True
  | .transferWithSchedule to_address schedule =>
      to_address < 256 ^ 32 ∧ schedule.length ≤ 255 ∧
        ∀ e ∈ schedule, e.1 < 256 ^ 8 ∧ e.2 < 256 ^ 8
  | .updateCredentials new_cred_infos remove_cred_ids _ =>
      new_cred_infos.length ≤ 255 ∧
        List.Chain' (· < ·) (new_cred_infos.map Prod.fst) ∧
        (∀ q ∈ new_cred_infos, q.1 < 256) ∧ remove_cred_ids.length ≤ 255
  | .registerData data => data.length ≤ 256
  | .transferWithMemo to_address memo amount =>
      to_address < 256 ^ 32 ∧ memo.length ≤ 256 ∧ amount < 256 ^ 8
  | .encryptedAmountTransferWithMemo to_address memo _ => to_address < 256 ^ 32 ∧ memo.length ≤ 256
  | .transferWithScheduleAndMemo to_address memo schedule =>
      to_address < 256 ^ 32 ∧ memo.length ≤ 256 ∧ schedule.length ≤ 255 ∧
        ∀ e ∈ schedule, e.1 < 256 ^ 8 ∧ e.2 < 256 ^ 8

theorem scheduleEntryC_lawfulOn :
    scheduleEntryC.LawfulOn (fun e => e.1 < 256 ^ 8 ∧ e.2 < 256 ^ 8) := by
  rintro ⟨t, a⟩ ⟨ht, ha⟩ r
  simp [scheduleEntryC, List.append_assoc, beRead_beBytes_of_lt 8 t ht,
    beRead_beBytes_of_lt 8 a ha]

theorem initContract_deserial_serial {E : ExtEnv} (hE : LawfulExt E)
    (p : InitContractPayload E) (h : p.amount < 256 ^ 8) (r : List Nat) :
    InitContractPayload.deserial E (p.serial ++ r) = some (p, r) := by
  simp [InitContractPayload.serial, InitContractPayload.deserial,
    List.append_assoc, beRead_beBytes_of_lt 8 p.amount h, hE.modRef _,
    hE.initName _, hE.param _]

theorem updateContract_deserial_serial {E : ExtEnv} (hE : LawfulExt E)
    (p : UpdateContractPayload E) (h : p.amount < 256 ^ 8) (r : List Nat) :
    UpdateContractPayload.deserial E (p.serial ++ r) = some (p, r) := by
  simp [UpdateContractPayload.serial, UpdateContractPayload.deserial,
    List.append_assoc, beRead_beBytes_of_lt 8 p.amount h, hE.contractAddress _,
    hE.receiveName _, hE.param _]

theorem addBaker_deserial_serial {E : ExtEnv} (hE : LawfulExt E)
    (p : AddBakerPayload E) (h : p.baking_stake < 256 ^ 8) (r : List Nat) :
    AddBakerPayload.deserial E (p.serial ++ r) = some (p, r) := by
  simp [AddBakerPayload.serial, AddBakerPayload.deserial, List.append_assoc,
    beRead_beBytes_of_lt 8 p.baking_stake h, hE.bakerKeys _, boolC_lawful _]

theorem memoC_roundtrip (m : List Nat) (hm : m.length ≤ 256) (r : List Nat) :
    memoC.dec (memoC.enc m ++ r) = some (m, r) :=
  lenPrefixed16_lawfulOn 256 (by norm_num) m hm r

set_option maxHeartbeats 2000000 in
/-- Decode-of-encode for every structured payload within protocol limits:
the parse consumes exactly the encoded bytes and returns the payload. -/
theorem Payload.deserial_serial {E : ExtEnv} (hE : LawfulExt E) (p : Payload E)
    (hp : p.WithinLimits) (r : List Nat) :
    Payload.deserial E (Payload.serial p ++ r) = some (p, r) := by
  cases p with
  | deployModule module =>
      simp [Payload.serial, Payload.deserial, readByte, Payload.deserialTag,
        hE.wasm _]
  | initContract payload =>
      simp [Payload.serial, Payload.deserial, readByte, Payload.deserialTag,
        initContract_deserial_serial hE payload hp]
  | update payload =>
      simp [Payload.serial, Payload.deserial, readByte, Payload.deserialTag,
        updateContract_deserial_serial hE payload hp]
  | transfer to_address amount =>
      obtain ⟨h1, h2⟩ := hp
      simp [Payload.serial, Payload.deserial, readByte, Payload.deserialTag,
        List.append_assoc, beRead_beBytes_of_lt 32 to_address h1,
        beRead_beBytes_of_lt 8 amount h2]
  | addBaker payload =>
      simp [Payload.serial, Payload.deserial, readByte, Payload.deserialTag,
        addBaker_deserial_serial hE payload hp]
  | removeBaker =>
      simp [Payload.serial, Payload.deserial, readByte, Payload.deserialTag]
  | updateBakerStake stake =>
      simp [Payload.serial, Payload.deserial, readByte, Payload.deserialTag,
        beRead_beBytes_of_lt 8 stake hp]
  | updateBakerRestakeEarnings restake_earnings =>
      simp [Payload.serial, Payload.deserial, readByte, Payload.deserialTag,
        boolC_lawful _]
  | updateBakerKeys payload =>
      simp [Payload.serial, Payload.deserial, readByte, Payload.deserialTag,
        hE.bakerKeys _]
  | updateCredentialKeys cred_id keys =>
      simp [Payload.serial, Payload.deserial, readByte, Payload.deserialTag,
        List.append_assoc, hE.credRegId _, hE.credPublicKeys _]
  | encryptedAmountTransfer to_address data =>
      simp [Payload.serial, Payload.deserial, readByte, Payload.deserialTag,
        List.append_assoc, beRead_beBytes_of_lt 32 to_address hp,
        hE.encTransferData _]
  | transferToEncrypted amount =>
      simp [Payload.serial, Payload.deserial, readByte, Payload.deserialTag,
        beRead_beBytes_of_lt 8 amount hp]
  | transferToPublic data =>
      simp [Payload.serial, Payload.deserial, readByte, Payload.deserialTag,
        hE.secToPubData _]
  | transferWithSchedule to_address schedule =>
      obtain ⟨h1, h2, h3⟩ := hp
      have hlen : byte schedule.length = schedule.length :=
        Nat.mod_eq_of_lt (lt_of_le_of_lt h2 (by norm_num))
      have hsch := deserialListNoLength_roundtrip scheduleEntryC schedule
        (fun e he => scheduleEntryC_lawfulOn e (h3 e he))
      simp [Payload.serial, Payload.deserial, readByte, Payload.deserialTag,
        List.append_assoc, beRead_beBytes_of_lt 32 to_address h1, hlen, hsch]
  | updateCredentials new_cred_infos remove_cred_ids new_threshold =>
      obtain ⟨h1, h2, h3, h4⟩ := hp
      have hlen1 : byte new_cred_infos.length = new_cred_infos.length :=
        Nat.mod_eq_of_lt (lt_of_le_of_lt h1 (by norm_num))
      have hlen2 : byte remove_cred_ids.length = remove_cred_ids.length :=
        Nat.mod_eq_of_lt (lt_of_le_of_lt h4 (by norm_num))
      have hmap := deserialMapNoLength_roundtrip byteC E.credDeploymentInfoC
        new_cred_infos none
        (by simpa using h2)
        (fun q hq => byteC_lawfulOn q.1 (h3 q hq))
        (fun q hq => hE.credDeploymentInfo q.2)
      have hrem := deserialListNoLength_roundtrip E.credRegIdC remove_cred_ids
        (fun a _ => hE.credRegId a)
      simp [Payload.serial, Payload.deserial, readByte, Payload.deserialTag,
        List.append_assoc, hlen1, hlen2, hmap, hrem, hE.accountThreshold _]
  | registerData data =>
      have hdata := lenPrefixed16_lawfulOn 256 (by norm_num) data hp
      simp [Payload.serial, Payload.deserial, readByte, Payload.deserialTag,
        registeredDataC, hdata]
  | transferWithMemo to_address memo amount =>
      obtain ⟨h1, h2, h3⟩ := hp
      simp [Payload.serial, Payload.deserial, readByte, Payload.deserialTag,
        List.append_assoc, beRead_beBytes_of_lt 32 to_address h1,
        memoC_roundtrip memo h2, beRead_beBytes_of_lt 8 amount h3]
  | encryptedAmountTransferWithMemo to_address memo data =>
      obtain ⟨h1, h2⟩ := hp
      simp [Payload.serial, Payload.deserial, readByte, Payload.deserialTag,
        List.append_assoc, beRead_beBytes_of_lt 32 to_address h1,
        memoC_roundtrip memo h2, hE.encTransferData _]
  | transferWithScheduleAndMemo to_address memo schedule =>
      obtain ⟨h1, h2, h3, h4⟩ := hp
      have hlen : byte schedule.length = schedule.length :=
        Nat.mod_eq_of_lt (lt_of_le_of_lt h3 (by norm_num))
      have hsch := deserialListNoLength_roundtrip scheduleEntryC schedule
        (fun e he => scheduleEntryC_lawfulOn e (h4 e he))
      simp [Payload.serial, Payload.deserial, readByte, Payload.deserialTag,
        List.append_assoc, beRead_beBytes_of_lt 32 to_address h1,
        memoC_roundtrip memo h2, hlen, hsch]

/-- Models `EncodedPayload`: an already-serialized payload blob. -/
structure EncodedPayload where
  payload : List Nat

/-- Models `EncodedPayload::size`: the blob length as a `u32`. -/
def EncodedPayload.size (e : EncodedPayload) : Nat := e.payload.length % 2 ^ 32

/-- Models `EncodedPayload::decode`: parse a structured payload from the blob and
fail unless the parse consumed exactly the whole blob. -/
def EncodedPayload.decode (E : ExtEnv) (e : EncodedPayload) : Option (Payload E) :=
  match Payload.deserial E e.payload with
  | some (p, rest) => if rest = [] then some p else none
  | none => none

/-- Models `PayloadLike::encode` for `Payload` (`to_bytes(self)`). -/
def Payload.encode {E : ExtEnv} (p : Payload E) : EncodedPayload := ⟨Payload.serial p⟩

/-- The transaction header: sender (32-byte address), nonce (`u64`), energy
(`u64`), payload size (`u32`), expiry (`u64`). -/
structure TransactionHeader where
  sender : Nat
  nonce : Nat
  energy_amount : Nat
  payload_size : Nat
  expiry : Nat

/-- The derived `Serial` instance of the header: fields in declared order
with fixed widths, 60 bytes in total. -/
def TransactionHeader.serial (h : TransactionHeader) : List Nat :=
  beBytes 32 h.sender ++ beBytes 8 h.nonce ++ beBytes 8 h.energy_amount ++
    beBytes 4 h.payload_size ++ beBytes 8 h.expiry

theorem TransactionHeader.serial_length (h : TransactionHeader) :
    h.serial.length = 60 := by
  simp [TransactionHeader.serial]

/-- Models `compute_transaction_sign_hash`, parameterized by the 256-bit digest
primitive (an external black-box capability): hash the serialized header
followed by the payload bytes produced by `encode_to_buffer`. -/
def compute_transaction_sign_hash (digest : List Nat → List Nat)
    (header : TransactionHeader) (payloadBytes : List Nat) : List Nat :=
  digest (header.serial ++ payloadBytes)

/-- The sign hash of a structured payload (`encode_to_buffer` serializes). -/
def signHashOfPayload (digest : List Nat → List Nat) {E : ExtEnv}
    (header : TransactionHeader) (p : Payload E) : List Nat :=
  compute_transaction_sign_hash digest header (Payload.serial p)

/-- The sign hash of a pre-encoded payload (`encode_to_buffer` writes the
stored bytes unchanged). -/
def signHashOfEncoded (digest : List Nat → List Nat) (header : TransactionHeader)
    (e : EncodedPayload) : List Nat :=
  compute_transaction_sign_hash digest header e.payload

/-- A two-level transaction signature: credential index to key index to raw
signature (signatures opaque, as `Nat`), both levels ordered maps. -/
structure TransactionSignature where
  signatures : List (Nat × List (Nat × Nat))

/-- Total number of signatures in a two-level signature map. -/
def TransactionSignature.count (ts : TransactionSignature) : Nat :=
  (ts.signatures.map fun p => p.2.length).sum

/-- An account transaction: signature, header, payload. -/
structure AccountTransaction (E : ExtEnv) where
  signature : TransactionSignature
  header : TransactionHeader
  payload : Payload E

/-- The sign hash of an account transaction over a structured payload, as
computed by `verify_transaction_signature`: from header and payload only. -/
def AccountTransaction.signHash (digest : List Nat → List Nat) {E : ExtEnv}
    (t : AccountTransaction E) : List Nat :=
  signHashOfPayload digest t.header t.payload

/-- Association-list lookup, modelling `BTreeMap::get`. -/
def lookupA {α : Type} : List (Nat × α) → Nat → Option α
  | [], _ => none
  | (k0, v) :: l, k => if k0 = k then some v else lookupA l k

/-- Models `CredentialPublicKeys`: a per-credential key map (public keys opaque,
as `Nat`) with its signature threshold. -/
structure CredentialPublicKeys where
  threshold : Nat
  keys : List (Nat × Nat)

/-- Models `AccountAccessStructure`: account threshold and keys per credential. -/
structure AccountAccessStructure where
  threshold : Nat
  keys : List (Nat × CredentialPublicKeys)

/-- Models `verify_signature_transaction_sign_hash`, parameterized by the
signature-verification primitive `vrf pk hash sig` (black-box capability).
Mirrors the source: reject if the account threshold exceeds the number of
credential entries in the signature map; then for every credential entry,
reject unless the credential is recognized, its threshold is at most its
number of key entries, and every key entry is declared and verifies. -/
def verify_signature_transaction_sign_hash (vrf : Nat → List Nat → Nat → Bool)
    (keys : AccountAccessStructure) (hash : List Nat)
    (signature : TransactionSignature) : Bool :=
  if keys.threshold > signature.signatures.length then false
  else
    signature.signatures.all fun p =>
      match lookupA keys.keys p.1 with
      | some cred_keys =>
          if cred_keys.threshold > p.2.length then false
          else
            p.2.all fun q =>
              match lookupA cred_keys.keys q.1 with
              | some pk => vrf pk hash q.2
              | none => false
      | none => false

/-- The specification's verification conditions, stated as written there:
(a) the number of credential indices present in the signature map that the
access structure recognizes is at least the account threshold; (b) for each
recognized credential present, the number of key indices with entries
matching declared public keys is at least that credential's threshold;
(c) every signature present for a counted (credential, key) pair verifies
against the corresponding public key and the sign-hash. -/
def specVerifyConditions (vrf : Nat → List Nat → Nat → Bool)
    (keys : AccountAccessStructure) (hash : List Nat)
    (signature : TransactionSignature) : Bool :=
  decide (keys.threshold ≤
    (signature.signatures.filter fun p => (lookupA keys.keys p.1).isSome).length) &&
  signature.signatures.all fun p =>
    match lookupA keys.keys p.1 with
    | some cred_keys =>
        decide (cred_keys.threshold ≤
          (p.2.filter fun q => (lookupA cred_keys.keys q.1).isSome).length) &&
        p.2.all fun q =>
          match lookupA cred_keys.keys q.1 with
          | some pk => vrf pk hash q.2
          | none => true
    | none => true

/-- Models `CredentialData`: a credential's key pairs (opaque, as `Nat`) and its
signature threshold, as stored in `AccountKeys`. -/
structure CredentialData where
  keys : List (Nat × Nat)
  threshold : Nat

/-- Models `AccountKeys`: key pairs per credential plus the account threshold. -/
structure AccountKeys where
  keys : List (Nat × CredentialData)
  threshold : Nat

/-- Models `TransactionSigner::sign_transaction_hash` for `AccountKeys`,
parameterized by the signing primitive `sgn keypair hash`: sign with the
first `threshold` credentials, and within each with its first
`threshold`-many keys. -/
def AccountKeys.sign_transaction_hash (sgn : Nat → List Nat → Nat)
    (ak : AccountKeys) (hash : List Nat) : TransactionSignature :=
  ⟨(ak.keys.take ak.threshold).map fun p =>
    (p.1, (p.2.keys.take p.2.threshold).map fun q => (q.1, sgn q.2 hash))⟩

/-- Models `ExactSizeTransactionSigner::num_keys` for `AccountKeys`: the sum of the
per-credential thresholds over the first `threshold` credentials. -/
def AccountKeys.num_keys (ak : AccountKeys) : Nat :=
  ((ak.keys.take ak.threshold).map fun p => p.2.threshold).sum

/-- Models `TransactionSigner::sign_transaction_hash` for a
`BTreeMap<CredentialIndex, BTreeMap<KeyIndex, KeyPair>>`: sign with every
key of every credential. -/
def mapSigner_sign_transaction_hash (sgn : Nat → List Nat → Nat)
    (m : List (Nat × List (Nat × Nat))) (hash : List Nat) : TransactionSignature :=
  ⟨m.map fun p => (p.1, p.2.map fun q => (q.1, sgn q.2 hash))⟩

/-- Models `ExactSizeTransactionSigner::num_keys` for the map signer. -/
def mapSigner_num_keys (m : List (Nat × List (Nat × Nat))) : Nat :=
  (m.map fun p => p.2.length).sum

namespace cost

/-- The constant scaling the effect of the number of signatures. -/
def A : Nat := 100

/-- The constant scaling the effect of the transaction size. -/
def B : Nat := 1

/-- Models `cost::base_cost`: `B * size + A * num_signatures` in `u64` arithmetic. -/
def base_cost (transaction_size : Nat) (num_signatures : Nat) : Nat :=
  (B * transaction_size + A * num_signatures) % 2 ^ 64

/-- Additional cost of a normal transfer. -/
def SIMPLE_TRANSFER : Nat := 300

end cost

/-- Addition of two `Energy` values (`u64` arithmetic). -/
def addEnergy (x y : Nat) : Nat := (x + y) % 2 ^ 64

/-- A transaction prepared for signing. -/
structure PreAccountTransaction (E : ExtEnv) where
  header : TransactionHeader
  payload : Payload E
  encoded : EncodedPayload
  hash_to_sign : List Nat

/-- Size of a transaction header: 60 bytes. -/
def TRANSACTION_HEADER_SIZE : Nat := 32 + 8 + 8 + 4 + 8

/-- The private two-phase transaction builder. -/
structure TransactionBuilder (E : ExtEnv) where
  header : TransactionHeader
  payload : Payload E
  encoded : EncodedPayload

/-- Models `TransactionBuilder::new`: encode the payload once and build a header
with placeholder energy `0` and the real payload size. -/
def TransactionBuilder.new {E : ExtEnv} (sender : Nat) (nonce : Nat)
    (expiry : Nat) (payload : Payload E) : TransactionBuilder E :=
  let encoded := Payload.encode payload
  { header :=
      { sender := sender, nonce := nonce, energy_amount := 0,
        payload_size := encoded.size, expiry := expiry }
    payload := payload
    encoded := encoded }

/-- Models `TransactionBuilder::size`: header size plus payload size. -/
def TransactionBuilder.size {E : ExtEnv} (b : TransactionBuilder E) : Nat :=
  TRANSACTION_HEADER_SIZE + b.header.payload_size

/-- Models `TransactionBuilder::construct`: overwrite the energy with `f size` and
compute the sign hash over the finalized header and the encoded payload. -/
def TransactionBuilder.construct (digest : List Nat → List Nat) {E : ExtEnv}
    (b : TransactionBuilder E) (f : Nat → Nat) : PreAccountTransaction E :=
  let size := b.size
  let header := { b.header with energy_amount := f size }
  { header := header
    payload := b.payload
    encoded := b.encoded
    hash_to_sign := compute_transaction_sign_hash digest header b.encoded.payload }

/-- Models `construct::GivenEnergy`. -/
inductive GivenEnergy where
  | Absolute (energy : Nat)
  | Add (energy : Nat) (num_sigs : Nat)

/-- Models `construct::make_transaction`. -/
def make_transaction (digest : List Nat → List Nat) {E : ExtEnv} (sender : Nat)
    (nonce : Nat) (expiry : Nat) (energy : GivenEnergy) (payload : Payload E) :
    PreAccountTransaction E :=
  let builder := TransactionBuilder.new sender nonce expiry payload
  builder.construct digest fun size =>
    match energy with
    | .Absolute e => e
    | .Add e num_sigs => addEnergy (cost.base_cost size num_sigs) e

namespace construct

/-- Models `construct::transfer`: a transfer payload with energy
`base_cost(size, num_sigs) + SIMPLE_TRANSFER`. -/
def transfer (digest : List Nat → List Nat) (E : ExtEnv) (num_sigs : Nat)
    (sender : Nat) (nonce : Nat) (expiry : Nat) (receiver : Nat) (amount : Nat) :
    PreAccountTransaction E :=
  make_transaction digest sender nonce expiry
    (.Add cost.SIMPLE_TRANSFER num_sigs)
    (.transfer receiver amount)

end construct

/-- The opaque contents of the governance update payload variants, defined
in this repository's type modules outside the sources under study, with
their codecs. -/
structure UpdateEnv where
  Protocol : Type
  protocolC : Codec Protocol
  ElectionDifficulty : Type
  electionDifficultyC : Codec ElectionDifficulty
  EuroPerEnergy : Type
  euroPerEnergyC : Codec EuroPerEnergy
  MicroGTUPerEuro : Type
  microGTUPerEuroC : Codec MicroGTUPerEuro
  FoundationAccount : Type
  foundationAccountC : Codec FoundationAccount
  MintDistribution : Type
  mintDistributionC : Codec MintDistribution
  TransactionFeeDistribution : Type
  transactionFeeDistributionC : Codec TransactionFeeDistribution
  GASRewards : Type
  gasRewardsC : Codec GASRewards
  BakerStakeThreshold : Type
  bakerStakeThresholdC : Codec BakerStakeThreshold
  Root : Type
  rootC : Codec Root
  Level1 : Type
  level1C : Codec Level1
  AddAnonymityRevoker : Type
  addAnonymityRevokerC : Codec AddAnonymityRevoker
  AddIdentityProvider : Type
  addIdentityProviderC : Codec AddIdentityProvider

/-- The `UpdatePayload` enum of governance updates. -/
inductive UpdatePayload (U : UpdateEnv) where
  | Protocol (pu : U.Protocol)
  | ElectionDifficulty (ed : U.ElectionDifficulty)
  | EuroPerEnergy (ee : U.EuroPerEnergy)
  | MicroGTUPerEuro (me : U.MicroGTUPerEuro)
  | FoundationAccount (fa : U.FoundationAccount)
  | MintDistribution (md : U.MintDistribution)
  | TransactionFeeDistribution (tf : U.TransactionFeeDistribution)
  | GASRewards (gr : U.GASRewards)
  | BakerStakeThreshold (bs : U.BakerStakeThreshold)
  | Root (ru : U.Root)
  | Level1 (l1 : U.Level1)
  | AddAnonymityRevoker (add_ar : U.AddAnonymityRevoker)
  | AddIdentityProvider (add_ip : U.AddIdentityProvider)

/-- Models `impl Serial for UpdatePayload`: tag byte (1-13) then contents. -/
def UpdatePayload.serial {U : UpdateEnv} : UpdatePayload U → List Nat
  | .Protocol pu => 1 :: U.protocolC.enc pu
  | .ElectionDifficulty ed => 2 :: U.electionDifficultyC.enc ed
  | .EuroPerEnergy ee => 3 :: U.euroPerEnergyC.enc ee
  | .MicroGTUPerEuro me => 4 :: U.microGTUPerEuroC.enc me
  | .FoundationAccount fa => 5 :: U.foundationAccountC.enc fa
  | .MintDistribution md => 6 :: U.mintDistributionC.enc md
  | .TransactionFeeDistribution tf => 7 :: U.transactionFeeDistributionC.enc tf
  | .GASRewards gr => 8 :: U.gasRewardsC.enc gr
  | .BakerStakeThreshold bs => 9 :: U.bakerStakeThresholdC.enc bs
  | .Root ru => 10 :: U.rootC.enc ru
  | .Level1 l1 => 11 :: U.level1C.enc l1
  | .AddAnonymityRevoker add_ar => 12 :: U.addAnonymityRevokerC.enc add_ar
  | .AddIdentityProvider add_ip => 13 :: U.addIdentityProviderC.enc add_ip

/-- Dispatch of `impl Deserial for UpdatePayload` on the tag byte; an
unknown update payload tag is a parse error. -/
def UpdatePayload.deserialTag (U : UpdateEnv) (tag : Nat) (l : List Nat) :
    Option (UpdatePayload U × List Nat) :=
  if tag = 1 then do
    let (pu, r) ← U.protocolC.dec l
    pure (.Protocol pu, r)
  else if tag = 2 then do
    let (ed, r) ← U.electionDifficultyC.dec l
    pure (.ElectionDifficulty ed, r)
  else if tag = 3 then do
    let (ee, r) ← U.euroPerEnergyC.dec l
    pure (.EuroPerEnergy ee, r)
  else if tag = 4 then do
    let (me, r) ← U.microGTUPerEuroC.dec l
    pure (.MicroGTUPerEuro me, r)
  else if tag = 5 then do
    let (fa, r) ← U.foundationAccountC.dec l
    pure (.FoundationAccount fa, r)
  else if tag = 6 then do
    let (md, r) ← U.mintDistributionC.dec l
    pure (.MintDistribution md, r)
  else if tag = 7 then do
    let (tf, r) ← U.transactionFeeDistributionC.dec l
    pure (.TransactionFeeDistribution tf, r)
  else if tag = 8 then do
    let (gr, r) ← U.gasRewardsC.dec l
    pure (.GASRewards gr, r)
  else if tag = 9 then do
    let (bs, r) ← U.bakerStakeThresholdC.dec l
    pure (.BakerStakeThreshold bs, r)
  else if tag = 10 then do
    let (ru, r) ← U.rootC.dec l
    pure (.Root ru, r)
  else if tag = 11 then do
    let (l1, r) ← U.level1C.dec l
    pure (.Level1 l1, r)
  else if tag = 12 then do
    let (add_ar, r) ← U.addAnonymityRevokerC.dec l
    pure (.AddAnonymityRevoker add_ar, r)
  else if tag = 13 then do
    let (add_ip, r) ← U.addIdentityProviderC.dec l
    pure (.AddIdentityProvider add_ip, r)
  else none

/-- Models `impl Deserial for UpdatePayload`. -/
def UpdatePayload.deserial (U : UpdateEnv) (l : List Nat) :
    Option (UpdatePayload U × List Nat) := do
  let (tag, r) ← readByte l
  UpdatePayload.deserialTag U tag r

/-- Models `UpdateInstructionSignature`: a flat key-index-to-signature map
(signatures opaque, in type parameter `σ`). -/
structure UpdateInstructionSignature (σ : Type) where
  signatures : List (Nat × σ)

/-- Models `impl Deserial for UpdateInstructionSignature`: read a `u16` count,
require it nonzero, then read that many entries; `kc` is the codec of the
external `UpdateKeysIndex` type and `vc` of the raw `Signature` type. -/
def UpdateInstructionSignature.deserial {σ : Type} (kc : Codec Nat) (vc : Codec σ)
    (l : List Nat) : Option (UpdateInstructionSignature σ × List Nat) := do
  let (len, r) ← beRead 2 0 l
  if len = 0 then none
  else do
    let (signatures, r2) ← deserialMapNoLength kc vc len none r
    pure (⟨signatures⟩, r2)

/-- The trivial codec for a placeholder external type. -/
def unitC : Codec Unit := ⟨fun _ => [], fun l => some ((), l)⟩

theorem unitC_lawful : unitC.Lawful := fun _ _ => rfl

/-- A concrete instantiation of the external types, for evaluating the
development on closed inputs. -/
def Etriv : ExtEnv where
  WasmModule := Unit
  wasmModuleC := unitC
  ModuleRef := Unit
  moduleRefC := unitC
  InitName := Unit
  initNameC := unitC
  Param := Unit
  paramC := unitC
  ContractAddress := Unit
  contractAddressC := unitC
  ReceiveName := Unit
  receiveNameC := unitC
  BakerKeys := Unit
  bakerKeysC := unitC
  CredRegId := Unit
  credRegIdC := unitC
  CredPublicKeys := Unit
  credPublicKeysC := unitC
  EncTransferData := Unit
  encTransferDataC := unitC
  SecToPubData := Unit
  secToPubDataC := unitC
  CredDeploymentInfo := Unit
  credDeploymentInfoC := unitC
  AccountThreshold := Unit
  accountThresholdC := unitC

theorem Etriv_lawful : LawfulExt Etriv :=
  ⟨unitC_lawful, unitC_lawful, unitC_lawful, unitC_lawful, unitC_lawful,
   unitC_lawful, unitC_lawful, unitC_lawful, unitC_lawful, unitC_lawful,
   unitC_lawful, unitC_lawful, unitC_lawful⟩

/-- A concrete instantiation of the governance update contents. -/
def Utriv : UpdateEnv where
  Protocol := Unit
  protocolC := unitC
  ElectionDifficulty := Unit
  electionDifficultyC := unitC
  EuroPerEnergy := Unit
  euroPerEnergyC := unitC
  MicroGTUPerEuro := Unit
  microGTUPerEuroC := unitC
  FoundationAccount := Unit
  foundationAccountC := unitC
  MintDistribution := Unit
  mintDistributionC := unitC
  TransactionFeeDistribution := Unit
  transactionFeeDistributionC := unitC
  GASRewards := Unit
  gasRewardsC := unitC
  BakerStakeThreshold := Unit
  bakerStakeThresholdC := unitC
  Root := Unit
  rootC := unitC
  Level1 := Unit
  level1C := unitC
  AddAnonymityRevoker := Unit
  addAnonymityRevokerC := unitC
  AddIdentityProvider := Unit
  addIdentityProviderC := unitC

theorem scheduleEntryC_dec_enc (e : Nat × Nat) (r : List Nat) :
    scheduleEntryC.dec (scheduleEntryC.enc e ++ r) =
      some ((e.1 % 256 ^ 8, e.2 % 256 ^ 8), r) := by
  obtain ⟨t, a⟩ := e
  simp [scheduleEntryC, List.append_assoc, beRead_beBytes]

theorem scheduleSerial_length (l : List (Nat × Nat)) :
    (serialListNoLength scheduleEntryC l).length = 16 * l.length := by
  induction l with
  | nil => simp [serialListNoLength]
  | cons e l ih =>
      have he : (scheduleEntryC.enc e).length = 16 := by
        obtain ⟨t, a⟩ := e
        simp [scheduleEntryC]
      simp only [serialListNoLength, List.length_append, List.length_cons, ih, he]
      omega

/-- Models `EncodedPayload::decode` succeeds exactly when the structured parse
consumes the whole blob. -/
theorem EncodedPayload.decode_eq_some_iff (E : ExtEnv) (e : EncodedPayload)
    (p : Payload E) :
    EncodedPayload.decode E e = some p ↔
      Payload.deserial E e.payload = some (p, []) := by
  cases hd : Payload.deserial E e.payload with
  | none => simp [EncodedPayload.decode, hd]
  | some pr =>
      obtain ⟨q, rest⟩ := pr
      by_cases hr : rest = []
      · subst hr
        simp [EncodedPayload.decode, hd]
      · simp [EncodedPayload.decode, hd, hr]

/-- C2: for every transaction header and structured payload, the sign hash
computed from the structured payload equals the sign hash computed from its
pre-encoded form, and both equal the digest of the serialized header bytes
concatenated with the encoded payload bytes; the signature field of an
account transaction is not an input to the hash. -/
theorem sign_hash_representation_independent (digest : List Nat → List Nat)
    (E : ExtEnv) (h : TransactionHeader) (p : Payload E)
    (s1 s2 : TransactionSignature) :
    signHashOfPayload digest h p = signHashOfEncoded digest h (Payload.encode p) ∧
    signHashOfPayload digest h p = digest (h.serial ++ Payload.serial p) ∧
    AccountTransaction.signHash digest ⟨s1, h, p⟩ =
      AccountTransaction.signHash digest ⟨s2, h, p⟩ :=
  ⟨rfl, rfl, rfl⟩

/-- C3: for every payload within protocol limits, decoding the encoding
consumes exactly the encoded bytes and returns the same payload. -/
theorem payload_roundtrip (E : ExtEnv) (hE : LawfulExt E) (p : Payload E)
    (hp : p.WithinLimits) :
    Payload.deserial E (Payload.serial p) = some (p, []) := by
  simpa using Payload.deserial_serial hE p hp []

theorem payload_roundtrip_witness :
    (Payload.transfer (E := Etriv) 5 7).WithinLimits ∧
    Payload.deserial Etriv (Payload.serial (Payload.transfer (E := Etriv) 5 7)) =
      some (.transfer 5 7, []) :=
  ⟨⟨by norm_num, by norm_num⟩,
   payload_roundtrip Etriv Etriv_lawful _ ⟨by norm_num, by norm_num⟩⟩

/-- C4: a transfer payload always encodes to exactly 41 bytes (1 tag byte,
32 address bytes, 8 amount bytes), so `construct::transfer` with one
signature produces a header with payload size 41 and energy
`base_cost(60 + 41, 1) + 300 = 501`. -/
theorem construct_transfer_size_energy (digest : List Nat → List Nat)
    (E : ExtEnv) (sender nonce expiry receiver amount : Nat) :
    (Payload.serial (E := E) (.transfer receiver amount)).length = 41 ∧
    (construct.transfer digest E 1 sender nonce expiry receiver amount).header.payload_size
      = 41 ∧
    (construct.transfer digest E 1 sender nonce expiry receiver amount).header.energy_amount
      = addEnergy (cost.base_cost (60 + 41) 1) cost.SIMPLE_TRANSFER ∧
    (construct.transfer digest E 1 sender nonce expiry receiver amount).header.energy_amount
      = 501 := by
  refine ⟨?_, ?_, ?_, ?_⟩
  · simp [Payload.serial]
  · simp [construct.transfer, make_transaction, TransactionBuilder.construct,
      TransactionBuilder.new, Payload.encode, EncodedPayload.size, Payload.serial]
  · simp [construct.transfer, make_transaction, TransactionBuilder.construct,
      TransactionBuilder.new, TransactionBuilder.size, TRANSACTION_HEADER_SIZE,
      Payload.encode, EncodedPayload.size, Payload.serial]
  · simp [construct.transfer, make_transaction, TransactionBuilder.construct,
      TransactionBuilder.new, TransactionBuilder.size, TRANSACTION_HEADER_SIZE,
      Payload.encode, EncodedPayload.size, Payload.serial, addEnergy,
      cost.base_cost, cost.A, cost.B, cost.SIMPLE_TRANSFER]

/-- C7 as stated is false: `base_cost` is computed in `u64` arithmetic, so
at the wrap-around boundary increasing the signature count decreases the
result.  Concretely `s1 = s2 = 2^64 - 1`, `n1 = 0 ≤ n2 = 1` violates
monotonicity. -/
theorem base_cost_not_monotone :
    (2 ^ 64 - 1 ≤ 2 ^ 64 - 1) ∧ (0 ≤ 1) ∧
    ¬ cost.base_cost (2 ^ 64 - 1) 0 ≤ cost.base_cost (2 ^ 64 - 1) 1 := by
  refine ⟨le_refl _, Nat.zero_le 1, ?_⟩
  have h0 : cost.base_cost (2 ^ 64 - 1) 0 = 2 ^ 64 - 1 := by
    simp [cost.base_cost, cost.A, cost.B]
  have h1 : cost.base_cost (2 ^ 64 - 1) 1 = 99 := by
    simp [cost.base_cost, cost.A, cost.B]
  rw [h0, h1]
  norm_num

/-- C7 amended: `base_cost` is non-decreasing in both the size and the
number of signatures provided the larger computation does not overflow the
`u64` it is carried out in. -/
theorem base_cost_monotone (s1 s2 n1 n2 : Nat) (hs : s1 ≤ s2) (hn : n1 ≤ n2)
    (hof : cost.B * s2 + cost.A * n2 < 2 ^ 64) :
    cost.base_cost s1 n1 ≤ cost.base_cost s2 n2 := by
  have hle : cost.B * s1 + cost.A * n1 ≤ cost.B * s2 + cost.A * n2 := by
    simp only [cost.A, cost.B]
    omega
  unfold cost.base_cost
  rw [Nat.mod_eq_of_lt (lt_of_le_of_lt hle hof), Nat.mod_eq_of_lt hof]
  exact hle

theorem base_cost_monotone_witness :
    cost.base_cost 1 1 ≤ cost.base_cost 2 2 :=
  base_cost_monotone 1 2 1 2 (by norm_num) (by norm_num)
    (by simp [cost.A, cost.B])

/-- C5: decoding an `EncodedPayload` succeeds with `p` exactly when the
structured parse consumes the whole blob; in particular a 12-byte blob
whose structured content (a register-data payload) occupies only 10 bytes
is rejected rather than truncated. -/
theorem encoded_payload_decode_exact :
    (∀ (E : ExtEnv) (e : EncodedPayload) (p : Payload E),
        EncodedPayload.decode E e = some p ↔
          Payload.deserial E e.payload = some (p, [])) ∧
    Payload.deserial Etriv [21, 0, 7, 1, 2, 3, 4, 5, 6, 7, 9, 9] =
      some (.registerData [1, 2, 3, 4, 5, 6, 7], [9, 9]) ∧
    EncodedPayload.decode Etriv ⟨[21, 0, 7, 1, 2, 3, 4, 5, 6, 7, 9, 9]⟩ = none := by
  refine ⟨fun E e p => EncodedPayload.decode_eq_some_iff E e p, rfl, rfl⟩

/-- C6: an input whose first byte is not a recognized payload discriminant
(0-8, 13, 16-24) fails `Payload::deserial`, and an input whose first byte
is not a recognized update-payload discriminant (1-13) fails
`UpdatePayload::deserial`; no default variant is ever produced. -/
theorem unknown_discriminant_fails :
    (∀ (E : ExtEnv) (b : Nat) (rest : List Nat), b < 256 →
        b ∉ ([0, 1, 2, 3, 4, 5, 6, 7, 8, 13, 16, 17, 18, 19, 20, 21, 22, 23, 24] :
          List Nat) →
        Payload.deserial E (b :: rest) = none) ∧
    (∀ (U : UpdateEnv) (b : Nat) (rest : List Nat), b < 256 →
        b ∉ ([1, 2, 3, 4, 5, 6, 7, 8, 9, 10, 11, 12, 13] : List Nat) →
        UpdatePayload.deserial U (b :: rest) = none) := by
  constructor
  · intro E b rest _ hmem
    simp only [List.mem_cons, List.not_mem_nil, or_false, not_or] at hmem
    obtain ⟨h0, h1, h2, h3, h4, h5, h6, h7, h8, h13, h16, h17, h18, h19, h20,
      h21, h22, h23, h24⟩ := hmem
    simp [Payload.deserial, readByte, Payload.deserialTag, h0, h1, h2, h3, h4,
      h5, h6, h7, h8, h13, h16, h17, h18, h19, h20, h21, h22, h23, h24]
  · intro U b rest _ hmem
    simp only [List.mem_cons, List.not_mem_nil, or_false, not_or] at hmem
    obtain ⟨h1, h2, h3, h4, h5, h6, h7, h8, h9, h10, h11, h12, h13⟩ := hmem
    simp [UpdatePayload.deserial, readByte, UpdatePayload.deserialTag, h1, h2,
      h3, h4, h5, h6, h7, h8, h9, h10, h11, h12, h13]

theorem unknown_discriminant_fails_witness :
    Payload.deserial Etriv [9] = none ∧ UpdatePayload.deserial Utriv [14] = none :=
  ⟨unknown_discriminant_fails.1 Etriv 9 [] (by norm_num) (by decide),
   unknown_discriminant_fails.2 Utriv 14 [] (by norm_num) (by decide)⟩

/-- C9: deserializing an `UpdateInstructionSignature` fails whenever the
decoded signature count is zero, and whenever it succeeds the resulting
signature map is non-empty. -/
theorem update_signature_requires_nonzero {σ : Type} (kc : Codec Nat)
    (vc : Codec σ) :
    (∀ (l r : List Nat), beRead 2 0 l = some (0, r) →
        UpdateInstructionSignature.deserial kc vc l = none) ∧
    (∀ (l : List Nat) (s : UpdateInstructionSignature σ) (r : List Nat),
        UpdateInstructionSignature.deserial kc vc l = some (s, r) →
        s.signatures ≠ []) := by
  constructor
  · intro l r h
    simp [UpdateInstructionSignature.deserial, h]
  · intro l s r h
    simp only [UpdateInstructionSignature.deserial, Option.bind_eq_bind,
      Option.bind_eq_some] at h
    obtain ⟨⟨len, r1⟩, -, h⟩ := h
    cases len with
    | zero => simp at h
    | succ n =>
        simp only [Nat.succ_ne_zero, if_false, Option.bind_eq_some] at h
        obtain ⟨⟨sigs, r2⟩, hsigs, h⟩ := h
        have hlen := deserialMapNoLength_length kc vc (n + 1) none r1 sigs r2 hsigs
        simp only [Option.pure_def, Option.some.injEq, Prod.mk.injEq] at h
        have : s.signatures = sigs := by rw [← h.1]
        rw [this]
        intro hnil
        rw [hnil] at hlen
        simp at hlen

theorem update_signature_requires_nonzero_witness :
    UpdateInstructionSignature.deserial byteC unitC [0, 0, 3] = none ∧
    (UpdateInstructionSignature.mk [((5 : Nat), ())]).signatures ≠ [] :=
  ⟨(update_signature_requires_nonzero byteC unitC).1 [0, 0, 3] [3] rfl,
   (update_signature_requires_nonzero byteC unitC).2 [0, 1, 5] ⟨[(5, ())]⟩ [] rfl⟩

/-- C10 as stated is false: for an `AccountKeys` value in which a
credential's threshold exceeds its number of keys, `num_keys` counts the
full threshold while `sign_transaction_hash` can only sign with the keys
that exist, so the counts differ. -/
theorem num_keys_count_counterexample :
    AccountKeys.num_keys ⟨[(0, ⟨[(0, 7)], 2⟩)], 1⟩ = 2 ∧
    (AccountKeys.sign_transaction_hash (fun _ _ => 0)
      ⟨[(0, ⟨[(0, 7)], 2⟩)], 1⟩ [0]).count = 1 :=
  ⟨rfl, rfl⟩

/-- C10 amended: `num_keys` equals the number of signatures produced by
`sign_transaction_hash` for every `AccountKeys` in which each of the first
account-threshold credentials holds at least threshold-many keys, and for
the credential-map signer unconditionally. -/
theorem num_keys_eq_signature_count (sgn : Nat → List Nat → Nat)
    (hash : List Nat) :
    (∀ ak : AccountKeys,
        (∀ p ∈ ak.keys.take ak.threshold, p.2.threshold ≤ p.2.keys.length) →
        (AccountKeys.sign_transaction_hash sgn ak hash).count = ak.num_keys) ∧
    (∀ m : List (Nat × List (Nat × Nat)),
        (mapSigner_sign_transaction_hash sgn m hash).count = mapSigner_num_keys m) := by
  constructor
  · intro ak hthr
    simp only [AccountKeys.sign_transaction_hash, TransactionSignature.count,
      AccountKeys.num_keys, List.map_map]
    congr 1
    refine List.map_congr_left fun p hp => ?_
    simp only [Function.comp_apply, List.length_map, List.length_take]
    exact Nat.min_eq_left (hthr p hp)
  · intro m
    simp only [mapSigner_sign_transaction_hash, TransactionSignature.count,
      mapSigner_num_keys, List.map_map]
    congr 1
    refine List.map_congr_left fun p hp => ?_
    simp

theorem num_keys_eq_signature_count_witness :
    (AccountKeys.sign_transaction_hash (fun _ _ => 0)
      ⟨[(0, ⟨[(0, 7)], 1⟩)], 1⟩ []).count =
      AccountKeys.num_keys ⟨[(0, ⟨[(0, 7)], 1⟩)], 1⟩ :=
  (num_keys_eq_signature_count (fun _ _ => 0) []).1 ⟨[(0, ⟨[(0, 7)], 1⟩)], 1⟩
    (by decide)

/-- C1 as stated is false: the spec's conditions (a)-(c) can hold while
verification rejects.  Concretely: account threshold 1, one recognized
credential (index 0, threshold 1, key 0 declared) with a verifying
signature - so the recognized-credential count meets the threshold and all
counted pairs verify - but the signature map carries an additional entry
for the unknown credential index 1, which the code rejects outright. -/
theorem verify_spec_conditions_counterexample :
    specVerifyConditions (fun _ _ _ => true)
      ⟨1, [(0, ⟨1, [(0, 11)]⟩)]⟩ [0] ⟨[(0, [(0, 99)]), (1, [])]⟩ = true ∧
    verify_signature_transaction_sign_hash (fun _ _ _ => true)
      ⟨1, [(0, ⟨1, [(0, 11)]⟩)]⟩ [0] ⟨[(0, [(0, 99)]), (1, [])]⟩ = false :=
  ⟨rfl, rfl⟩

/-- C1 amended: verification succeeds exactly when (a') the account
threshold is at most the number of credential entries in the signature map,
(b') every credential entry in the map is recognized by the access
structure and holds at least threshold-many key entries, and (c') every key
entry matches a declared public key whose signature verifies against the
sign-hash.  Consequently a single invalid signature, unknown credential,
unknown key or insufficient count yields false, and an account threshold
greater than the number of credential entries always yields false. -/
theorem verify_signature_iff (vrf : Nat → List Nat → Nat → Bool)
    (keys : AccountAccessStructure) (hash : List Nat)
    (signature : TransactionSignature) :
    verify_signature_transaction_sign_hash vrf keys hash signature = true ↔
      keys.threshold ≤ signature.signatures.length ∧
      ∀ p ∈ signature.signatures, ∃ ck, lookupA keys.keys p.1 = some ck ∧
        ck.threshold ≤ p.2.length ∧
        ∀ q ∈ p.2, ∃ pk, lookupA ck.keys q.1 = some pk ∧ vrf pk hash q.2 = true := by
  unfold verify_signature_transaction_sign_hash
  by_cases hthr : keys.threshold > signature.signatures.length
  · rw [if_pos hthr]
    simp only [Bool.false_eq_true, false_iff, not_and]
    intro hle
    exact absurd hle (Nat.not_le.mpr hthr)
  · have hthr2 : keys.threshold ≤ signature.signatures.length := Nat.le_of_not_lt hthr
    simp only [hthr, if_false, List.all_eq_true, hthr2, true_and]
    constructor
    · intro h p hp
      have hp2 := h p hp
      cases hck : lookupA keys.keys p.1 with
      | none => rw [hck] at hp2; simp at hp2
      | some ck =>
          rw [hck] at hp2
          simp only at hp2
          by_cases hckthr : ck.threshold > p.2.length
          · rw [if_pos hckthr] at hp2; simp at hp2
          · rw [if_neg hckthr] at hp2
            rw [List.all_eq_true] at hp2
            refine ⟨ck, rfl, Nat.le_of_not_lt hckthr, fun q hq => ?_⟩
            have hq2 := hp2 q hq
            cases hpk : lookupA ck.keys q.1 with
            | none => rw [hpk] at hq2; simp at hq2
            | some pk =>
                rw [hpk] at hq2
                exact ⟨pk, rfl, hq2⟩
    · intro h p hp
      obtain ⟨ck, hck, hle, hkeys⟩ := h p hp
      rw [hck]
      simp only [if_neg (Nat.not_lt.mpr hle), List.all_eq_true]
      intro q hq
      obtain ⟨pk, hpk, hv⟩ := hkeys q hq
      rw [hpk]
      exact hv

set_option maxHeartbeats 2000000 in
/-- C8: encoding a schedule or credential-update payload whose collection
exceeds 255 entries succeeds with no error (serialization is total): the
single length-prefix byte silently wraps to `m mod 256` while all `m`
elements are still written, and the resulting encoding never decodes back
to the original payload. -/
theorem oversized_collections_wrap (E : ExtEnv) (hE : LawfulExt E) :
    (∀ (a : Nat) (sch : List (Nat × Nat)),
        Payload.serial (E := E) (.transferWithSchedule a sch) =
          19 :: (beBytes 32 a ++ (sch.length % 256) ::
            serialListNoLength scheduleEntryC sch)) ∧
    (∀ (infos : List (Nat × E.CredDeploymentInfo)) (removes : List E.CredRegId)
        (t : E.AccountThreshold),
        Payload.serial (E := E) (.updateCredentials infos removes t) =
          20 :: ((infos.length % 256) ::
            serialMapNoLength byteC E.credDeploymentInfoC infos ++
            (removes.length % 256) :: serialListNoLength E.credRegIdC removes ++
            E.accountThresholdC.enc t)) ∧
    (∀ (a : Nat) (sch : List (Nat × Nat)), a < 256 ^ 32 → 255 < sch.length →
        EncodedPayload.decode E
          (Payload.encode (E := E) (.transferWithSchedule a sch)) = none) ∧
    (∀ (a : Nat) (memo : List Nat) (sch : List (Nat × Nat)),
        a < 256 ^ 32 → memo.length ≤ 256 → 255 < sch.length →
        EncodedPayload.decode E
          (Payload.encode (E := E) (.transferWithScheduleAndMemo a memo sch)) = none) ∧
    (∀ (infos : List (Nat × E.CredDeploymentInfo)) (removes : List E.CredRegId)
        (t : E.AccountThreshold),
        List.Chain' (· < ·) (infos.map Prod.fst) → (∀ q ∈ infos, q.1 < 256) →
        255 < infos.length →
        EncodedPayload.decode E (Payload.encode (.updateCredentials infos removes t)) ≠
          some (.updateCredentials infos removes t)) ∧
    (∀ (infos : List (Nat × E.CredDeploymentInfo)) (removes : List E.CredRegId)
        (t : E.AccountThreshold),
        List.Chain' (· < ·) (infos.map Prod.fst) → (∀ q ∈ infos, q.1 < 256) →
        infos.length ≤ 255 → 255 < removes.length →
        EncodedPayload.decode E (Payload.encode (.updateCredentials infos removes t)) ≠
          some (.updateCredentials infos removes t)) := by
  refine ⟨fun a sch => rfl, fun infos removes t => rfl, ?_, ?_, ?_, ?_⟩
  · intro a sch ha hlen
    have h256 : sch.length % 256 < 256 := Nat.mod_lt _ (by norm_num)
    have hkk : sch.length % 256 < sch.length := lt_of_lt_of_le h256 hlen
    have htake := deserialListNoLength_take scheduleEntryC
      (fun e => (e.1 % 256 ^ 8, e.2 % 256 ^ 8)) scheduleEntryC_dec_enc
      (sch.length % 256) sch [] (le_of_lt hkk)
    simp only [List.append_nil] at htake
    have hrest : serialListNoLength scheduleEntryC (sch.drop (sch.length % 256)) ≠ [] := by
      have hpos : 0 <
          (serialListNoLength scheduleEntryC (sch.drop (sch.length % 256))).length := by
        rw [scheduleSerial_length, List.length_drop]
        omega
      exact List.length_pos.mp hpos
    simp [EncodedPayload.decode, Payload.encode, Payload.serial, Payload.deserial,
      readByte, Payload.deserialTag, byte, beRead_beBytes_of_lt 32 a ha, htake,
      hrest]
  · intro a memo sch ha hm hlen
    have h256 : sch.length % 256 < 256 := Nat.mod_lt _ (by norm_num)
    have hkk : sch.length % 256 < sch.length := lt_of_lt_of_le h256 hlen
    have htake := deserialListNoLength_take scheduleEntryC
      (fun e => (e.1 % 256 ^ 8, e.2 % 256 ^ 8)) scheduleEntryC_dec_enc
      (sch.length % 256) sch [] (le_of_lt hkk)
    simp only [List.append_nil] at htake
    have hrest : serialListNoLength scheduleEntryC (sch.drop (sch.length % 256)) ≠ [] := by
      have hpos : 0 <
          (serialListNoLength scheduleEntryC (sch.drop (sch.length % 256))).length := by
        rw [scheduleSerial_length, List.length_drop]
        omega
      exact List.length_pos.mp hpos
    simp [EncodedPayload.decode, Payload.encode, Payload.serial, Payload.deserial,
      readByte, Payload.deserialTag, byte, beRead_beBytes_of_lt 32 a ha,
      memoC_roundtrip memo hm, htake, hrest]
  · intro infos removes t hchain hbnd hlen
    have h256 : infos.length % 256 < 256 := Nat.mod_lt _ (by norm_num)
    have hkk : infos.length % 256 < infos.length := lt_of_lt_of_le h256 hlen
    have htake := deserialMapNoLength_take byteC E.credDeploymentInfoC
      (infos.length % 256) infos none (by simpa using hchain) (le_of_lt hkk)
      (fun q hq => byteC_lawfulOn q.1 (hbnd q hq))
      (fun q hq => hE.credDeploymentInfo q.2)
    rw [ne_eq, EncodedPayload.decode_eq_some_iff]
    intro hcontra
    have hcontra3 :
        (deserialMapNoLength byteC E.credDeploymentInfoC (infos.length % 256) none
          ((serialMapNoLength byteC E.credDeploymentInfoC infos ++
            ((removes.length % 256) :: serialListNoLength E.credRegIdC removes)) ++
            E.accountThresholdC.enc t)).bind (fun d2 =>
          (readByte d2.2).bind fun d3 =>
          (deserialListNoLength E.credRegIdC d3.1 d3.2).bind fun d4 =>
          (E.accountThresholdC.dec d4.2).bind fun d5 =>
          some (Payload.updateCredentials d2.1 d4.1 d5.1, d5.2)) =
          some (.updateCredentials infos removes t, []) := hcontra
    rw [List.append_assoc, List.cons_append] at hcontra3
    simp only [htake, Option.some_bind] at hcontra3
    simp only [Option.bind_eq_some] at hcontra3
    obtain ⟨d3, -, d4, -, d5, -, hfin⟩ := hcontra3
    simp only [Option.some.injEq, Prod.mk.injEq,
      Payload.updateCredentials.injEq] at hfin
    obtain ⟨⟨hinfos, -, -⟩, -⟩ := hfin
    have hlen2 := congrArg List.length hinfos
    rw [List.length_take] at hlen2
    omega
  · intro infos removes t hchain hbnd hMle hlen
    have h256 : removes.length % 256 < 256 := Nat.mod_lt _ (by norm_num)
    have hkkR : removes.length % 256 < removes.length := lt_of_lt_of_le h256 hlen
    have hmap := deserialMapNoLength_roundtrip byteC E.credDeploymentInfoC
      infos none (by simpa using hchain)
      (fun q hq => byteC_lawfulOn q.1 (hbnd q hq))
      (fun q hq => hE.credDeploymentInfo q.2)
    have htakeR := deserialListNoLength_take E.credRegIdC (fun x => x)
      (fun x r => hE.credRegId x r) (removes.length % 256) removes
      (E.accountThresholdC.enc t) (le_of_lt hkkR)
    rw [ne_eq, EncodedPayload.decode_eq_some_iff]
    intro hcontra
    have hcontra3 :
        (deserialMapNoLength byteC E.credDeploymentInfoC (infos.length % 256) none
          ((serialMapNoLength byteC E.credDeploymentInfoC infos ++
            ((removes.length % 256) :: serialListNoLength E.credRegIdC removes)) ++
            E.accountThresholdC.enc t)).bind (fun d2 =>
          (readByte d2.2).bind fun d3 =>
          (deserialListNoLength E.credRegIdC d3.1 d3.2).bind fun d4 =>
          (E.accountThresholdC.dec d4.2).bind fun d5 =>
          some (Payload.updateCredentials d2.1 d4.1 d5.1, d5.2)) =
          some (.updateCredentials infos removes t, []) := hcontra
    rw [List.append_assoc, List.cons_append,
      Nat.mod_eq_of_lt (lt_of_le_of_lt hMle (by norm_num))] at hcontra3
    simp only [hmap, Option.some_bind, readByte, htakeR] at hcontra3
    simp only [Option.bind_eq_some] at hcontra3
    obtain ⟨d5, -, hfin⟩ := hcontra3
    simp only [Option.some.injEq, Prod.mk.injEq,
      Payload.updateCredentials.injEq] at hfin
    obtain ⟨⟨-, hrem, -⟩, -⟩ := hfin
    have hlen2 := congrArg List.length hrem
    simp only [List.length_map, List.length_take] at hlen2
    omega

theorem oversized_collections_wrap_witness :
    255 < (List.replicate 256 ((0 : Nat), (0 : Nat))).length ∧
    EncodedPayload.decode Etriv
      (Payload.encode (E := Etriv)
        (.transferWithSchedule 0 (List.replicate 256 (0, 0)))) = none :=
  ⟨by norm_num,
   (oversized_collections_wrap Etriv Etriv_lawful).2.2.1 0
     (List.replicate 256 (0, 0)) (by norm_num) (by norm_num)⟩

end Tx
